import Mathlib

set_option linter.unnecessarySeqFocus false
set_option linter.unusedVariables false

/-!
Shallow embedding of `src/feed.rs` (vts163/rssbot): a streaming XML-to-feed
parser plus URL normalization.  The XML tokenizer (quick-xml) is external to
the repository; we model its event stream as a list of already-tokenized
events (`XmlEvent`), where the end of the list is the `Eof` event and a
tokenizer decode error is the `err` event.  Per-attribute decoding results
are carried on the events themselves, since the reader's `decode` /
`unescape_and_decode` calls are tokenizer functionality.

Every parsing function of the source consumes the event list strictly
left-to-right; the Lean embeddings return the unconsumed remainder of the
list together with a length bound used for termination.
-/

namespace RssBot

/-- Attribute as surfaced by the tokenizer: `key` and `value` are the
results of `reader.decode` (infallible, lossy), `unescaped` is the result of
`unescape_and_decode_value` (fallible). -/
structure Attribute where
  key : String
  value : String
  unescaped : Except Unit String
deriving Repr

deriving instance DecidableEq for Except

deriving instance DecidableEq for Attribute

/-- Event stream of the external XML reader.  The attribute iterator yields
per-attribute results, so attributes are `Except Unit Attribute`.  `text`
carries the result of `unescape_and_decode` (fallible); `cdata` carries the
result of `reader.decode` (infallible).  `other` stands for the event kinds
every loop of the source ignores via its catch-all arm (comments,
processing instructions, declarations).  `err` is a tokenizer decode error
returned by `read_event`; the end of the list is `Eof`. -/
inductive XmlEvent where
  | start (name : String) (attrs : List (Except Unit Attribute))
  | empty (name : String) (attrs : List (Except Unit Attribute))
  | endTag
  | text (decoded : Except Unit String)
  | cdata (s : String)
  | other
  | err
deriving Repr, DecidableEq

/-- Error taxonomy of `errors::*` as used by `feed.rs`: a quick-xml error
(`err.into()`), `ErrorKind::EOF`, and `ErrorKind::Http(code)`. -/
inductive FeedError where
  | xml
  | eof
  | http (code : Nat)
deriving Repr, DecidableEq

/-- Item struct of `feed.rs` (title, link, id, all optional). -/
structure Item where
  title : Option String
  link : Option String
  id : Option String
deriving Repr, DecidableEq

/-- Item::default(): all fields None. -/
def Item.default : Item := ⟨none, none, none⟩

/-- RSS struct of `feed.rs` (feed title, link, items). -/
structure RSS where
  title : String
  link : String
  items : List Item
deriving Repr, DecidableEq

/-- RSS::default(): empty strings, empty vec. -/
def RSS.default : RSS := ⟨"", "", []⟩

/-- Loop body of `parse_atom_link`: folds over the attribute iterator
carrying `link_tmp` and `is_alternate`. -/
def parseAtomLinkGo : Option String → Bool → List (Except Unit Attribute) → Option String
  | link_tmp, is_alternate, [] => if is_alternate then link_tmp else none
  | link_tmp, is_alternate, .error _ :: rest => parseAtomLinkGo link_tmp is_alternate rest
  | link_tmp, is_alternate, .ok a :: rest =>
    if a.key = "href" then
      match a.unescaped with
      | .ok link => parseAtomLinkGo (some link) is_alternate rest
      | .error _ => parseAtomLinkGo link_tmp is_alternate rest
    else if a.key = "rel" then
      parseAtomLinkGo link_tmp (a.value = "alternate") rest
    else
      parseAtomLinkGo link_tmp is_alternate rest

/-- Embedding of `parse_atom_link` (feed.rs lines 26-52): scan the attribute
list with `link_tmp = None`, `is_alternate = true`; a `href` attribute whose
value decodes stores the link (decode failure skips the attribute); a `rel`
attribute sets `is_alternate` to whether its decoded value is
`"alternate"`; a failed attribute entry is skipped.  Returns `link_tmp`
only if `is_alternate` holds at the end. -/
def parse_atom_link (attrs : List (Except Unit Attribute)) : Option String :=
  parseAtomLinkGo none true attrs

/-- Embedding of `skip_element` (feed.rs lines 54-69): consume events until
the matching `End` or `Eof`, recursing on nested `Start`; a tokenizer error
propagates.  Returns the unconsumed remainder of the stream (with a length
bound for termination). -/
def skipAux : (s : List XmlEvent) → Except FeedError { t : List XmlEvent // t.length ≤ s.length }
  | [] => .ok ⟨[], Nat.le_refl 0⟩
  | .err :: _ => .error .xml
  | .endTag :: s => .ok ⟨s, Nat.le_succ_of_le (Nat.le_refl _)⟩
  | .start _ _ :: s =>
    match skipAux s with
    | .error e => .error e
    | .ok ⟨t, ht⟩ =>
      match skipAux t with
      | .error e => .error e
      | .ok ⟨u, hu⟩ => .ok ⟨u, by simp only [List.length_cons]; omega⟩
  | .empty _ _ :: s =>
    match skipAux s with
    | .error e => .error e
    | .ok ⟨t, ht⟩ => .ok ⟨t, by simp only [List.length_cons]; omega⟩
  | .text _ :: s =>
    match skipAux s with
    | .error e => .error e
    | .ok ⟨t, ht⟩ => .ok ⟨t, by simp only [List.length_cons]; omega⟩
  | .cdata _ :: s =>
    match skipAux s with
    | .error e => .error e
    | .ok ⟨t, ht⟩ => .ok ⟨t, by simp only [List.length_cons]; omega⟩
  | .other :: s =>
    match skipAux s with
    | .error e => .error e
    | .ok ⟨t, ht⟩ => .ok ⟨t, by simp only [List.length_cons]; omega⟩
termination_by s => s.length
decreasing_by all_goals (simp only [List.length_cons]; omega)

/-- Wrapper for `skip_element` returning the plain remainder stream. -/
def skip_element (s : List XmlEvent) : Except FeedError (List XmlEvent) :=
  match skipAux s with
  | .error e => .error e
  | .ok t => .ok t.val

/-- Embedding of `impl FromXml for Option<String>` (feed.rs lines 71-99):
scan events carrying the captured `content`; a nested `Start` is skipped
via `skip_element`; `Text` (if it decodes — otherwise the error propagates)
and `CData` overwrite `content`; `End` or `Eof` returns `content`. -/
def textAux : (acc : Option String) → (s : List XmlEvent) →
    Except FeedError (Option String × { t : List XmlEvent // t.length ≤ s.length })
  | acc, [] => .ok (acc, ⟨[], Nat.le_refl 0⟩)
  | _, .err :: _ => .error .xml
  | acc, .endTag :: s => .ok (acc, ⟨s, Nat.le_succ_of_le (Nat.le_refl _)⟩)
  | acc, .start _ _ :: s =>
    match skipAux s with
    | .error e => .error e
    | .ok ⟨t, ht⟩ =>
      match textAux acc t with
      | .error e => .error e
      | .ok (c, ⟨u, hu⟩) => .ok (c, ⟨u, by simp only [List.length_cons]; omega⟩)
  | _, .text (.error _) :: _ => .error .xml
  | _, .text (.ok x) :: s =>
    match textAux (some x) s with
    | .error e => .error e
    | .ok (c, ⟨t, ht⟩) => .ok (c, ⟨t, by simp only [List.length_cons]; omega⟩)
  | _, .cdata x :: s =>
    match textAux (some x) s with
    | .error e => .error e
    | .ok (c, ⟨t, ht⟩) => .ok (c, ⟨t, by simp only [List.length_cons]; omega⟩)
  | acc, .empty _ _ :: s =>
    match textAux acc s with
    | .error e => .error e
    | .ok (c, ⟨t, ht⟩) => .ok (c, ⟨t, by simp only [List.length_cons]; omega⟩)
  | acc, .other :: s =>
    match textAux acc s with
    | .error e => .error e
    | .ok (c, ⟨t, ht⟩) => .ok (c, ⟨t, by simp only [List.length_cons]; omega⟩)
termination_by _ s => s.length
decreasing_by all_goals (simp only [List.length_cons]; omega)

/-- Optional-text extraction from an intermediate loop state. -/
def text_from_state (acc : Option String) (s : List XmlEvent) :
    Except FeedError (Option String × List XmlEvent) :=
  match textAux acc s with
  | .error e => .error e
  | .ok (c, t) => .ok (c, t.val)

/-- Entry point of `Option::<String>::from_xml`: content starts absent. -/
def option_string_from_xml (s : List XmlEvent) :
    Except FeedError (Option String × List XmlEvent) :=
  text_from_state none s

/-- Embedding of `impl FromXml for Item` (feed.rs lines 171-216), with the
Item being built as explicit loop state.  `Empty` named `link` takes the
Atom attribute path; `Start` dispatches on the name: `title` assigns the
extraction result unconditionally, `link` tries text extraction then the
Atom attribute fallback, `id`/`guid` assign unconditionally, anything else
is skipped.  `End`/`Eof` return the item. -/
def itemAux : (it : Item) → (s : List XmlEvent) →
    Except FeedError (Item × { t : List XmlEvent // t.length ≤ s.length })
  | it, [] => .ok (it, ⟨[], Nat.le_refl 0⟩)
  | _, .err :: _ => .error .xml
  | it, .endTag :: s => .ok (it, ⟨s, Nat.le_succ_of_le (Nat.le_refl _)⟩)
  | it, .empty name attrs :: s =>
    match itemAux (if name = "link" then
        match parse_atom_link attrs with
        | some link => { it with link := some link }
        | none => it
      else it) s with
    | .error e => .error e
    | .ok (r, ⟨t, ht⟩) => .ok (r, ⟨t, by simp only [List.length_cons]; omega⟩)
  | it, .start name attrs :: s =>
    if name = "title" then
      match textAux none s with
      | .error e => .error e
      | .ok (content, ⟨t, ht⟩) =>
        match itemAux { it with title := content } t with
        | .error e => .error e
        | .ok (r, ⟨u, hu⟩) => .ok (r, ⟨u, by simp only [List.length_cons]; omega⟩)
    else if name = "link" then
      match textAux none s with
      | .error e => .error e
      | .ok (content, ⟨t, ht⟩) =>
        match itemAux (match content with
          | some link => { it with link := some link }
          | none =>
            match parse_atom_link attrs with
            | some link => { it with link := some link }
            | none => it) t with
        | .error e => .error e
        | .ok (r, ⟨u, hu⟩) => .ok (r, ⟨u, by simp only [List.length_cons]; omega⟩)
    else if name = "id" ∨ name = "guid" then
      match textAux none s with
      | .error e => .error e
      | .ok (content, ⟨t, ht⟩) =>
        match itemAux { it with id := content } t with
        | .error e => .error e
        | .ok (r, ⟨u, hu⟩) => .ok (r, ⟨u, by simp only [List.length_cons]; omega⟩)
    else
      match skipAux s with
      | .error e => .error e
      | .ok ⟨t, ht⟩ =>
        match itemAux it t with
        | .error e => .error e
        | .ok (r, ⟨u, hu⟩) => .ok (r, ⟨u, by simp only [List.length_cons]; omega⟩)
  | it, .text _ :: s =>
    match itemAux it s with
    | .error e => .error e
    | .ok (r, ⟨t, ht⟩) => .ok (r, ⟨t, by simp only [List.length_cons]; omega⟩)
  | it, .cdata _ :: s =>
    match itemAux it s with
    | .error e => .error e
    | .ok (r, ⟨t, ht⟩) => .ok (r, ⟨t, by simp only [List.length_cons]; omega⟩)
  | it, .other :: s =>
    match itemAux it s with
    | .error e => .error e
    | .ok (r, ⟨t, ht⟩) => .ok (r, ⟨t, by simp only [List.length_cons]; omega⟩)
termination_by _ s => s.length
decreasing_by all_goals (simp only [List.length_cons]; omega)

/-- Item parsing from an intermediate loop state. -/
def item_from_state (it : Item) (s : List XmlEvent) :
    Except FeedError (Item × List XmlEvent) :=
  match itemAux it s with
  | .error e => .error e
  | .ok (r, t) => .ok (r, t.val)

/-- Entry point of `Item::from_xml`: starts from `Item::default()`. -/
def Item.from_xml (s : List XmlEvent) : Except FeedError (Item × List XmlEvent) :=
  item_from_state Item.default s

/-- Embedding of `impl FromXml for RSS` (feed.rs lines 109-162), with the
RSS being built as explicit loop state.  `Empty` named `link` takes the
Atom attribute path; `Start` dispatches: `channel` (RDF shape) recursively
parses a fresh RSS and adopts only its title and link, `title` overwrites
only on a Some extraction, `link` tries text then the Atom attribute
fallback, `item`/`entry` parse an Item (from `Item::default()`) and append
it, anything else is skipped.  `End`/`Eof` return the feed. -/
def rssAux : (r : RSS) → (s : List XmlEvent) →
    Except FeedError (RSS × { t : List XmlEvent // t.length ≤ s.length })
  | r, [] => .ok (r, ⟨[], Nat.le_refl 0⟩)
  | _, .err :: _ => .error .xml
  | r, .endTag :: s => .ok (r, ⟨s, Nat.le_succ_of_le (Nat.le_refl _)⟩)
  | r, .empty name attrs :: s =>
    match rssAux (if name = "link" then
        match parse_atom_link attrs with
        | some link => { r with link := link }
        | none => r
      else r) s with
    | .error e => .error e
    | .ok (r', ⟨t, ht⟩) => .ok (r', ⟨t, by simp only [List.length_cons]; omega⟩)
  | r, .start name attrs :: s =>
    if name = "channel" then
      match rssAux RSS.default s with
      | .error e => .error e
      | .ok (rdf, ⟨t, ht⟩) =>
        match rssAux { r with title := rdf.title, link := rdf.link } t with
        | .error e => .error e
        | .ok (r', ⟨u, hu⟩) => .ok (r', ⟨u, by simp only [List.length_cons]; omega⟩)
    else if name = "title" then
      match textAux none s with
      | .error e => .error e
      | .ok (content, ⟨t, ht⟩) =>
        match rssAux (match content with
          | some title => { r with title := title }
          | none => r) t with
        | .error e => .error e
        | .ok (r', ⟨u, hu⟩) => .ok (r', ⟨u, by simp only [List.length_cons]; omega⟩)
    else if name = "link" then
      match textAux none s with
      | .error e => .error e
      | .ok (content, ⟨t, ht⟩) =>
        match rssAux (match content with
          | some link => { r with link := link }
          | none =>
            match parse_atom_link attrs with
            | some link => { r with link := link }
            | none => r) t with
        | .error e => .error e
        | .ok (r', ⟨u, hu⟩) => .ok (r', ⟨u, by simp only [List.length_cons]; omega⟩)
    else if name = "item" ∨ name = "entry" then
      match itemAux Item.default s with
      | .error e => .error e
      | .ok (item, ⟨t, ht⟩) =>
        match rssAux { r with items := r.items ++ [item] } t with
        | .error e => .error e
        | .ok (r', ⟨u, hu⟩) => .ok (r', ⟨u, by simp only [List.length_cons]; omega⟩)
    else
      match skipAux s with
      | .error e => .error e
      | .ok ⟨t, ht⟩ =>
        match rssAux r t with
        | .error e => .error e
        | .ok (r', ⟨u, hu⟩) => .ok (r', ⟨u, by simp only [List.length_cons]; omega⟩)
  | r, .text _ :: s =>
    match rssAux r s with
    | .error e => .error e
    | .ok (r', ⟨t, ht⟩) => .ok (r', ⟨t, by simp only [List.length_cons]; omega⟩)
  | r, .cdata _ :: s =>
    match rssAux r s with
    | .error e => .error e
    | .ok (r', ⟨t, ht⟩) => .ok (r', ⟨t, by simp only [List.length_cons]; omega⟩)
  | r, .other :: s =>
    match rssAux r s with
    | .error e => .error e
    | .ok (r', ⟨t, ht⟩) => .ok (r', ⟨t, by simp only [List.length_cons]; omega⟩)
termination_by _ s => s.length
decreasing_by all_goals (simp only [List.length_cons]; omega)

/-- Feed parsing from an intermediate loop state. -/
def rss_from_state (r : RSS) (s : List XmlEvent) :
    Except FeedError (RSS × List XmlEvent) :=
  match rssAux r s with
  | .error e => .error e
  | .ok (r', t) => .ok (r', t.val)

/-- Entry point of `RSS::from_xml`: starts from `RSS::default()`. -/
def RSS.from_xml (s : List XmlEvent) : Except FeedError (RSS × List XmlEvent) :=
  rss_from_state RSS.default s

/-- Result of delegating to `RSS::from_xml` from `parse` (the remainder of
the stream is dropped since `parse` returns the feed directly). -/
def rss_from_xml_value (s : List XmlEvent) : Except FeedError RSS :=
  match rssAux RSS.default s with
  | .error e => .error e
  | .ok (r, _) => .ok r

/-- Embedding of the top-level `parse` (feed.rs lines 218-239): scan for an
opening tag; `rss` is ignored and scanning continues; `channel`, `feed`, or
`rdf:RDF` delegates to `RSS::from_xml`; any other opening tag is skipped as
a whole subtree; `Eof` fails with `ErrorKind::EOF`; a tokenizer error
propagates; every other event is ignored. -/
def parse : (s : List XmlEvent) → Except FeedError RSS
  | [] => .error .eof
  | .err :: _ => .error .xml
  | .start name _ :: s =>
    if name = "rss" then parse s
    else if name = "channel" ∨ name = "feed" ∨ name = "rdf:RDF" then
      rss_from_xml_value s
    else
      match skipAux s with
      | .error e => .error e
      | .ok ⟨t, _ht⟩ => parse t
  | .empty _ _ :: s => parse s
  | .endTag :: s => parse s
  | .text _ :: s => parse s
  | .cdata _ :: s => parse s
  | .other :: s => parse s
termination_by s => s.length
decreasing_by all_goals (simp only [List.length_cons]; omega)

/-- Characters before the first slash of a character list (the `[^/]+` part
of the HOST pattern, greedy). -/
def charsBeforeSlash : List Char → List Char
  | [] => []
  | c :: cs => if c = '/' then [] else c :: charsBeforeSlash cs

/-- Longest run of non-slash characters at the front of a string. -/
def hostSeg (s : String) : String := ⟨charsBeforeSlash s.data⟩

/-- String drop by character count (kernel-computable). -/
def strDrop (s : String) (n : Nat) : String := ⟨s.data.drop n⟩

/-- Embedding of `str::starts_with` (kernel-computable). -/
def starts_with (s pat : String) : Bool := pat.data.isPrefixOf s.data

/-- Modelled regex semantics of `HOST = ^((?:https?://)?[^/]+)` (feed.rs
lines 17-19): an optional `http://` or `https://` scheme at the start
followed by at least one non-slash character; the whole match is returned.
If the scheme alternative cannot be completed with a non-empty host
segment, the engine backtracks to matching `[^/]+` from the string start;
an empty or slash-initial string yields no match. -/
def hostCaptures (s : String) : Option String :=
  if starts_with s "https://" && hostSeg (strDrop s 8) != "" then
    some ("https://" ++ hostSeg (strDrop s 8))
  else if starts_with s "http://" && hostSeg (strDrop s 7) != "" then
    some ("http://" ++ hostSeg (strDrop s 7))
  else if hostSeg s != "" then
    some (hostSeg s)
  else
    none

/-- Origin computation of `fix_relative_url` (feed.rs line 258-260):
`HOST.captures(rss_link).map_or(rss_link, |r| r.get(0)...)` — the HOST
match, or the literal input when the pattern does not match. -/
def rss_host (rss_link : String) : String :=
  (hostCaptures rss_link).getD rss_link

/-- Embedding of `set_url_relative_to_absolute` (feed.rs lines 241-255):
`//`-initial links get `http:` prepended, otherwise `/`-initial links get
the host prepended, anything else is unchanged. -/
def set_url_relative_to_absolute (link : String) (host : String) : String :=
  if starts_with link "//" then "http:" ++ link
  else if starts_with link "/" then host ++ link
  else link

/-- Embedding of `fix_relative_url` (feed.rs lines 257-272): compute the
origin from the source URL; a feed link that is `""` or `"/"` is replaced
by the origin, any other feed link goes through
`set_url_relative_to_absolute`; every present item link goes through
`set_url_relative_to_absolute` only. -/
def fix_relative_url (rss : RSS) (rss_link : String) : RSS :=
  let rss_host' := rss_host rss_link
  { title := rss.title
    link := if rss.link = "" ∨ rss.link = "/" then rss_host'
            else set_url_relative_to_absolute rss.link rss_host'
    items := rss.items.map (fun it =>
      { it with link := it.link.map (fun l => set_url_relative_to_absolute l rss_host') }) }

/-- Embedding of the response continuation of `fetch_feed` (feed.rs lines
300-309): a response code other than 200 fails with `ErrorKind::Http(code)`;
otherwise the body is parsed and the result URL-normalized against the
request link. -/
def fetch_feed_result (response_code : Nat) (body : List XmlEvent) (link : String) :
    Except FeedError RSS :=
  if response_code ≠ 200 then .error (.http response_code)
  else
    match parse body with
    | .error e => .error e
    | .ok rss => .ok (fix_relative_url rss link)

/-- Fragment contributed by an event at the extractor's own nesting level:
decoded text or CDATA content. -/
def frag : XmlEvent → Option String
  | .text (.ok x) => some x
  | .cdata x => some x
  | _ => none

/-- Last text/CDATA fragment of an event list (document order). -/
def lastFrag (us : List XmlEvent) : Option String :=
  (us.filterMap frag).getLast?

/-- Events that a skipping/extracting loop consumes in one step without
recursion and without failure: everything except `start`, `endTag`, `err`. -/
def flatEv : XmlEvent → Bool
  | .start _ _ => false
  | .endTag => false
  | .err => false
  | _ => true

/-- Text events whose decoding succeeds (an undecodable text event aborts
the optional-text extractor). -/
def topTextOk : XmlEvent → Bool
  | .text (.error _) => false
  | _ => true

/-- Units s us : the event list `s` is a well-formed sequence of complete
units at one nesting level — flat events and complete balanced elements —
and `us` collects exactly the flat events at this level, in order (the
contents of nested elements are dropped). -/
inductive Units : List XmlEvent → List XmlEvent → Prop where
  | nil : Units [] []
  | flat {e : XmlEvent} {s us : List XmlEvent} :
      flatEv e = true → Units s us → Units (e :: s) (e :: us)
  | elem {n : String} {a : List (Except Unit Attribute)}
      {inner ius s us : List XmlEvent} :
      Units inner ius → Units s us →
      Units (.start n a :: inner ++ .endTag :: s) us

/-- Events the top-level `parse` scan steps over without action: everything
except `start` and `err` (closing tags included). -/
def scanFlat : XmlEvent → Bool
  | .start _ _ => false
  | .err => false
  | _ => true

/-- Names recognized as feed roots by `parse`. -/
def isRootName (n : String) : Prop :=
  n = "channel" ∨ n = "feed" ∨ n = "rdf:RDF"

/-- NoRoot s : scanning `s` as the top-level `parse` does — stepping over
non-start events, descending into `rss` elements, skipping complete
unrecognized elements — reaches the end of the stream without ever finding
an opening tag named `channel`, `feed`, or `rdf:RDF`. -/
inductive NoRoot : List XmlEvent → Prop where
  | nil : NoRoot []
  | flat {e : XmlEvent} {s : List XmlEvent} :
      scanFlat e = true → NoRoot s → NoRoot (e :: s)
  | rss {a : List (Except Unit Attribute)} {s : List XmlEvent} :
      NoRoot s → NoRoot (.start "rss" a :: s)
  | other {n : String} {a : List (Except Unit Attribute)}
      {inner ius s : List XmlEvent} :
      n ≠ "rss" → ¬ isRootName n → Units inner ius → NoRoot s →
      NoRoot (.start n a :: inner ++ .endTag :: s)

/-- FindsRoot s t : scanning `s` as the top-level `parse` does reaches an
opening tag named `channel`, `feed`, or `rdf:RDF`, with `t` the stream
immediately after that opening tag. -/
inductive FindsRoot : List XmlEvent → List XmlEvent → Prop where
  | here {n : String} {a : List (Except Unit Attribute)} {s : List XmlEvent} :
      isRootName n → FindsRoot (.start n a :: s) s
  | flat {e : XmlEvent} {s t : List XmlEvent} :
      scanFlat e = true → FindsRoot s t → FindsRoot (e :: s) t
  | rss {a : List (Except Unit Attribute)} {s t : List XmlEvent} :
      FindsRoot s t → FindsRoot (.start "rss" a :: s) t
  | other {n : String} {a : List (Except Unit Attribute)}
      {inner ius s t : List XmlEvent} :
      n ≠ "rss" → ¬ isRootName n → Units inner ius → FindsRoot s t →
      FindsRoot (.start n a :: inner ++ .endTag :: s) t

/-- Overwrite-accumulation of fragments: the last fragment of `us` when
there is one, the starting accumulator otherwise. -/
def contentAfter (acc : Option String) (us : List XmlEvent) : Option String :=
  match lastFrag us with
  | some v => some v
  | none => acc

/-- Decoded values of the `rel` attributes of an attribute list, in order
(failed attribute entries skipped; `rel` decoding is infallible). -/
def relValues (attrs : List (Except Unit Attribute)) : List String :=
  attrs.filterMap (fun ae =>
    match ae with
    | .ok a => if a.key = "rel" then some a.value else none
    | .error _ => none)

/-- Successfully decoded values of the `href` attributes of an attribute
list, in order (failed entries and failed value decodes skipped). -/
def decodedHrefs (attrs : List (Except Unit Attribute)) : List String :=
  attrs.filterMap (fun ae =>
    match ae with
    | .ok a => if a.key = "href" then a.unescaped.toOption else none
    | .error _ => none)

/-- Final value of `is_alternate` starting from `b`: decided by the last
`rel` attribute when one exists. -/
def isAlternateRelFrom (b : Bool) (attrs : List (Except Unit Attribute)) : Bool :=
  match (relValues attrs).getLast? with
  | some v => v = "alternate"
  | none => b

/-- Whether the `rel` attribute is absent or its (last) decoded value is
`"alternate"`. -/
def isAlternateRel (attrs : List (Except Unit Attribute)) : Bool :=
  isAlternateRelFrom true attrs

/-- Final value of `link_tmp` starting from `l`: the last successfully
decoded `href` value when one exists. -/
def lastHrefFrom (l : Option String) (attrs : List (Except Unit Attribute)) : Option String :=
  match (decodedHrefs attrs).getLast? with
  | some v => some v
  | none => l

/-- Last successfully decoded `href` value of an attribute list. -/
def lastHref (attrs : List (Except Unit Attribute)) : Option String :=
  lastHrefFrom none attrs

/-! Step lemmas: one-event unfoldings of the loop wrappers, and the
behavior of `skip_element` on complete balanced content. -/

theorem skip_element_nil : skip_element [] = .ok [] := by
  simp [skip_element, skipAux]

theorem skip_element_err (s : List XmlEvent) : skip_element (.err :: s) = .error .xml := by
  simp [skip_element, skipAux]

theorem skip_element_end (s : List XmlEvent) : skip_element (.endTag :: s) = .ok s := by
  simp [skip_element, skipAux]

theorem skip_element_start (n : String) (a : List (Except Unit Attribute)) (s : List XmlEvent) :
    skip_element (.start n a :: s) =
      match skip_element s with
      | .error e => .error e
      | .ok t => skip_element t := by
  simp only [skip_element, skipAux]
  cases hs : skipAux s with
  | error e => simp
  | ok t =>
    obtain ⟨t, ht⟩ := t
    cases h2 : skipAux t with
    | error e => simp [h2]
    | ok u => obtain ⟨u, hu⟩ := u; simp [h2]

theorem skip_element_flat {e : XmlEvent} (he : flatEv e = true) (s : List XmlEvent) :
    skip_element (e :: s) = skip_element s := by
  cases e <;> simp_all [flatEv] <;>
    (simp only [skip_element, skipAux]; cases hs : skipAux s with
      | error e => simp
      | ok t => obtain ⟨t, ht⟩ := t; simp)

theorem text_from_state_nil (acc : Option String) : text_from_state acc [] = .ok (acc, []) := by
  simp [text_from_state, textAux]

theorem text_from_state_err (acc : Option String) (s : List XmlEvent) :
    text_from_state acc (.err :: s) = .error .xml := by
  simp [text_from_state, textAux]

theorem text_from_state_end (acc : Option String) (s : List XmlEvent) :
    text_from_state acc (.endTag :: s) = .ok (acc, s) := by
  simp [text_from_state, textAux]

theorem text_from_state_start (acc : Option String) (n : String)
    (a : List (Except Unit Attribute)) (s : List XmlEvent) :
    text_from_state acc (.start n a :: s) =
      match skip_element s with
      | .error e => .error e
      | .ok t => text_from_state acc t := by
  simp only [text_from_state, textAux, skip_element]
  cases hs : skipAux s with
  | error e => simp
  | ok t =>
    obtain ⟨t, ht⟩ := t
    cases ht2 : textAux acc t with
    | error e => simp [ht2]
    | ok p => obtain ⟨c, u, hu⟩ := p; simp [ht2]

theorem text_from_state_text_ok (acc : Option String) (x : String) (s : List XmlEvent) :
    text_from_state acc (.text (.ok x) :: s) = text_from_state (some x) s := by
  simp only [text_from_state, textAux]
  cases ht : textAux (some x) s with
  | error e => simp [ht]
  | ok p => obtain ⟨c, u, hu⟩ := p; simp [ht]

theorem text_from_state_text_err (acc : Option String) (u : Unit) (s : List XmlEvent) :
    text_from_state acc (.text (.error u) :: s) = .error .xml := by
  simp [text_from_state, textAux]

theorem text_from_state_cdata (acc : Option String) (x : String) (s : List XmlEvent) :
    text_from_state acc (.cdata x :: s) = text_from_state (some x) s := by
  simp only [text_from_state, textAux]
  cases ht : textAux (some x) s with
  | error e => simp [ht]
  | ok p => obtain ⟨c, u, hu⟩ := p; simp [ht]

theorem text_from_state_empty (acc : Option String) (n : String)
    (a : List (Except Unit Attribute)) (s : List XmlEvent) :
    text_from_state acc (.empty n a :: s) = text_from_state acc s := by
  simp only [text_from_state, textAux]
  cases ht : textAux acc s with
  | error e => simp [ht]
  | ok p => obtain ⟨c, u, hu⟩ := p; simp [ht]

theorem text_from_state_other (acc : Option String) (s : List XmlEvent) :
    text_from_state acc (.other :: s) = text_from_state acc s := by
  simp only [text_from_state, textAux]
  cases ht : textAux acc s with
  | error e => simp [ht]
  | ok p => obtain ⟨c, u, hu⟩ := p; simp [ht]

-- Units-based skip lemmas

theorem skip_element_units {inner ius : List XmlEvent} (h : Units inner ius) :
    ∀ rest, skip_element (inner ++ .endTag :: rest) = .ok rest := by
  induction h with
  | nil => intro rest; simp [skip_element_end]
  | flat he _ ih =>
    intro rest
    simp only [List.cons_append]
    rw [skip_element_flat he, ih rest]
  | elem hinner hs ihinner ihs =>
    intro rest
    simp only [List.cons_append, List.append_assoc]
    rw [skip_element_start, ihinner]
    exact ihs rest

theorem skip_element_units_eof {s us : List XmlEvent} (h : Units s us) :
    skip_element s = .ok [] := by
  induction h with
  | nil => exact skip_element_nil
  | flat he _ ih => rw [skip_element_flat he, ih]
  | elem hinner hs ihinner ihs =>
    simp only [List.cons_append]
    rw [skip_element_start, skip_element_units hinner]
    exact ihs

/-! Error-shape lemmas: no parsing loop ever produces the `eof` error
(only the top-level `parse` does), and `lastFrag` unfolding. -/

theorem skipAux_ne_eof : ∀ s, skipAux s ≠ .error .eof := by
  intro s
  induction s using skipAux.induct <;> simp_all [skipAux]

theorem textAux_ne_eof : ∀ acc s, textAux acc s ≠ .error .eof := by
  intro acc s
  induction acc, s using textAux.induct <;>
    simp_all [textAux] <;>
    (rintro rfl; exact skipAux_ne_eof _ ‹_›)


theorem itemAux_ne_eof : ∀ it s, itemAux it s ≠ .error .eof := by
  intro it s
  induction it, s using itemAux.induct <;>
    simp_all [itemAux] <;>
    (rintro rfl; first
      | exact skipAux_ne_eof _ ‹_›
      | exact textAux_ne_eof _ _ ‹_›)

theorem rssAux_ne_eof : ∀ r s, rssAux r s ≠ .error .eof := by
  intro r s
  induction r, s using rssAux.induct <;>
    simp_all [rssAux] <;>
    (rintro rfl; first
      | exact skipAux_ne_eof _ ‹_›
      | exact textAux_ne_eof _ _ ‹_›
      | exact itemAux_ne_eof _ _ ‹_›)

theorem rss_from_xml_value_ne_eof (s : List XmlEvent) :
    rss_from_xml_value s ≠ .error .eof := by
  unfold rss_from_xml_value
  cases h : rssAux RSS.default s with
  | error e =>
    intro hc
    simp only at hc
    cases hc
    exact rssAux_ne_eof _ _ h
  | ok p => simp

-- contentAfter: overwrite-fold of fragments

theorem lastFrag_nil : lastFrag [] = none := rfl

theorem lastFrag_cons (e : XmlEvent) (us : List XmlEvent) :
    lastFrag (e :: us) =
      match lastFrag us with
      | some v => some v
      | none => frag e := by
  simp only [lastFrag, List.filterMap_cons]
  cases hf : frag e with
  | none =>
    cases h : (us.filterMap frag).getLast? with
    | none => simp_all
    | some v => simp_all
  | some x =>
    cases h2 : us.filterMap frag with
    | nil => simp_all
    | cons y t =>
      rw [List.getLast?_cons_cons]
      cases h : (y :: t).getLast? with
      | none => simp at h
      | some v => simp_all [List.getLast?_cons_cons]

/-! Characterization helpers: getLast? unfolding, contentAfter, and the
`parse_atom_link` loop as a last-rel / last-href computation. -/

theorem getLast?_cons_match {α : Type} (x : α) (l : List α) :
    (x :: l).getLast? =
      match l.getLast? with
      | some v => some v
      | none => some x := by
  cases l with
  | nil => simp
  | cons y t =>
    rw [List.getLast?_cons_cons]
    have h : (y :: t).getLast?.isSome := by
      rw [List.getLast?_isSome]
      simp
    obtain ⟨v, hv⟩ := Option.isSome_iff_exists.mp h
    simp [hv]

theorem contentAfter_cons (acc : Option String) (e : XmlEvent) (us : List XmlEvent) :
    contentAfter acc (e :: us) =
      contentAfter (match frag e with | some x => some x | none => acc) us := by
  simp only [contentAfter, lastFrag_cons]
  cases h : lastFrag us <;> cases hf : frag e <;> simp

theorem contentAfter_none (us : List XmlEvent) : contentAfter none us = lastFrag us := by
  simp only [contentAfter]
  cases h : lastFrag us <;> simp

-- parse_atom_link characterization

theorem parseAtomLinkGo_spec : ∀ (attrs : List (Except Unit Attribute))
    (l : Option String) (b : Bool),
    parseAtomLinkGo l b attrs =
      if isAlternateRelFrom b attrs then lastHrefFrom l attrs else none := by
  intro attrs
  induction attrs with
  | nil => intro l b; simp [parseAtomLinkGo, isAlternateRelFrom, lastHrefFrom, relValues, decodedHrefs]
  | cons ae rest ih =>
    intro l b
    cases ae with
    | error u =>
      rw [show parseAtomLinkGo l b (.error u :: rest) = parseAtomLinkGo l b rest from rfl, ih]
      simp [isAlternateRelFrom, lastHrefFrom, relValues, decodedHrefs]
    | ok a =>
      by_cases hhref : a.key = "href"
      · cases hu : a.unescaped with
        | ok link =>
          rw [show parseAtomLinkGo l b (.ok a :: rest) =
              parseAtomLinkGo (some link) b rest by simp [parseAtomLinkGo, hhref, hu], ih]
          have hrel : relValues (.ok a :: rest) = relValues rest := by
            simp [relValues, hhref]
          have hdh : decodedHrefs (.ok a :: rest) = link :: decodedHrefs rest := by
            simp [decodedHrefs, hhref, hu, Except.toOption]
          simp only [isAlternateRelFrom, lastHrefFrom, hrel, hdh, getLast?_cons_match]
          cases h2 : (decodedHrefs rest).getLast? <;> simp
        | error u =>
          rw [show parseAtomLinkGo l b (.ok a :: rest) =
              parseAtomLinkGo l b rest by simp [parseAtomLinkGo, hhref, hu], ih]
          have hrel : relValues (.ok a :: rest) = relValues rest := by
            simp [relValues, hhref]
          have hdh : decodedHrefs (.ok a :: rest) = decodedHrefs rest := by
            simp [decodedHrefs, hhref, hu, Except.toOption]
          simp only [isAlternateRelFrom, lastHrefFrom, hrel, hdh]
      · by_cases hrelk : a.key = "rel"
        · rw [show parseAtomLinkGo l b (.ok a :: rest) =
              parseAtomLinkGo l (a.value = "alternate") rest by
                simp [parseAtomLinkGo, hhref, hrelk], ih]
          have hrel : relValues (.ok a :: rest) = a.value :: relValues rest := by
            simp [relValues, hhref, hrelk]
          have hdh : decodedHrefs (.ok a :: rest) = decodedHrefs rest := by
            simp [decodedHrefs, hhref, hrelk]
          simp only [isAlternateRelFrom, lastHrefFrom, hrel, hdh, getLast?_cons_match]
          cases h2 : (relValues rest).getLast? <;> simp
        · rw [show parseAtomLinkGo l b (.ok a :: rest) =
              parseAtomLinkGo l b rest by simp [parseAtomLinkGo, hhref, hrelk], ih]
          have hrel : relValues (.ok a :: rest) = relValues rest := by
            simp [relValues, hhref, hrelk]
          have hdh : decodedHrefs (.ok a :: rest) = decodedHrefs rest := by
            simp [decodedHrefs, hhref, hrelk]
          simp only [isAlternateRelFrom, lastHrefFrom, hrel, hdh]

/-! Optional-text extractor over complete level content. -/

theorem text_from_state_units {s us : List XmlEvent} (h : Units s us) :
    us.all topTextOk = true → ∀ (acc : Option String) (rest : List XmlEvent),
      text_from_state acc (s ++ .endTag :: rest) = .ok (contentAfter acc us, rest) := by
  induction h with
  | nil =>
    intro _ acc rest
    simp [text_from_state_end, contentAfter, lastFrag_nil]
  | flat he hu ih =>
    intro hok acc rest
    simp only [List.all_cons, Bool.and_eq_true] at hok
    simp only [List.cons_append]
    rename_i e s' us'
    cases e with
    | start n a => simp [flatEv] at he
    | endTag => simp [flatEv] at he
    | err => simp [flatEv] at he
    | text d =>
      cases d with
      | error u => simp [topTextOk] at hok
      | ok x =>
        rw [text_from_state_text_ok, ih hok.2 (some x) rest, contentAfter_cons]
        simp [frag]
    | cdata x =>
      rw [text_from_state_cdata, ih hok.2 (some x) rest, contentAfter_cons]
      simp [frag]
    | empty n a =>
      rw [text_from_state_empty, ih hok.2 acc rest, contentAfter_cons]
      simp [frag]
    | other =>
      rw [text_from_state_other, ih hok.2 acc rest, contentAfter_cons]
      simp [frag]
  | elem hinner hs ihinner ihs =>
    intro hok acc rest
    simp only [List.cons_append, List.append_assoc]
    rw [text_from_state_start, skip_element_units hinner]
    exact ihs hok acc rest

theorem text_from_state_units_eof {s us : List XmlEvent} (h : Units s us) :
    us.all topTextOk = true → ∀ (acc : Option String),
      text_from_state acc s = .ok (contentAfter acc us, []) := by
  induction h with
  | nil =>
    intro _ acc
    simp [text_from_state_nil, contentAfter, lastFrag_nil]
  | flat he hu ih =>
    intro hok acc
    simp only [List.all_cons, Bool.and_eq_true] at hok
    rename_i e s' us'
    cases e with
    | start n a => simp [flatEv] at he
    | endTag => simp [flatEv] at he
    | err => simp [flatEv] at he
    | text d =>
      cases d with
      | error u => simp [topTextOk] at hok
      | ok x =>
        rw [text_from_state_text_ok, ih hok.2 (some x), contentAfter_cons]
        simp [frag]
    | cdata x =>
      rw [text_from_state_cdata, ih hok.2 (some x), contentAfter_cons]
      simp [frag]
    | empty n a =>
      rw [text_from_state_empty, ih hok.2 acc, contentAfter_cons]
      simp [frag]
    | other =>
      rw [text_from_state_other, ih hok.2 acc, contentAfter_cons]
      simp [frag]
  | elem hinner hs ihinner ihs =>
    intro hok acc
    simp only [List.cons_append]
    rw [text_from_state_start, skip_element_units hinner]
    exact ihs hok acc

/-! Top-level dispatcher scan lemmas. -/

theorem parse_nil : parse [] = .error .eof := by
  simp [parse]

theorem parse_err (s : List XmlEvent) : parse (.err :: s) = .error .xml := by
  simp [parse]

theorem parse_flat {e : XmlEvent} (he : scanFlat e = true) (s : List XmlEvent) :
    parse (e :: s) = parse s := by
  cases e <;> simp_all [scanFlat, parse]

theorem parse_rss (a : List (Except Unit Attribute)) (s : List XmlEvent) :
    parse (.start "rss" a :: s) = parse s := by
  simp [parse]

theorem parse_root {n : String} (h : isRootName n) (a : List (Except Unit Attribute))
    (s : List XmlEvent) :
    parse (.start n a :: s) = rss_from_xml_value s := by
  rcases h with h | h | h <;> subst h <;> simp [parse]

theorem parse_other_start {n : String} (h1 : n ≠ "rss") (h2 : ¬ isRootName n)
    (a : List (Except Unit Attribute)) (s : List XmlEvent) :
    parse (.start n a :: s) =
      match skip_element s with
      | .error e => .error e
      | .ok t => parse t := by
  simp only [isRootName, not_or] at h2
  simp only [parse, h1, h2.1, h2.2.1, h2.2.2, if_false, skip_element]
  cases hs : skipAux s with
  | error e => simp
  | ok t => obtain ⟨t, ht⟩ := t; simp



theorem parse_noRoot {s : List XmlEvent} (h : NoRoot s) : parse s = .error .eof := by
  induction h with
  | nil => exact parse_nil
  | flat he _ ih => rw [parse_flat he, ih]
  | rss _ ih => rw [parse_rss, ih]
  | other h1 h2 hu _ ih =>
    simp only [List.cons_append]
    rw [parse_other_start h1 h2, skip_element_units hu]
    exact ih

theorem parse_findsRoot {s t : List XmlEvent} (h : FindsRoot s t) :
    parse s = rss_from_xml_value t := by
  induction h with
  | here hn => exact parse_root hn _ _
  | flat he _ ih => rw [parse_flat he, ih]
  | rss _ ih => rw [parse_rss, ih]
  | other h1 h2 hu _ ih =>
    simp only [List.cons_append]
    rw [parse_other_start h1 h2, skip_element_units hu]
    exact ih

/-! Dispatch step lemmas of the feed and item loops, and skip behavior
with and without tokenizer errors. -/

theorem rss_from_state_channel (r : RSS) (a : List (Except Unit Attribute))
    (s : List XmlEvent) :
    rss_from_state r (.start "channel" a :: s) =
      match rss_from_state RSS.default s with
      | .error e => .error e
      | .ok (rdf, t) => rss_from_state { r with title := rdf.title, link := rdf.link } t := by
  simp only [rss_from_state, rssAux]
  cases h : rssAux RSS.default s with
  | error e => simp
  | ok p =>
    obtain ⟨rdf, t, ht⟩ := p
    cases h2 : rssAux { r with title := rdf.title, link := rdf.link } t with
    | error e => simp [h2]
    | ok q => obtain ⟨r2, u, hu⟩ := q; simp [h2]

theorem item_from_state_title (it : Item) (a : List (Except Unit Attribute))
    (s : List XmlEvent) :
    item_from_state it (.start "title" a :: s) =
      match text_from_state none s with
      | .error e => .error e
      | .ok (c, t) => item_from_state { it with title := c } t := by
  simp only [item_from_state, itemAux, text_from_state]
  cases h : textAux none s with
  | error e => simp
  | ok p =>
    obtain ⟨c, t, ht⟩ := p
    cases h2 : itemAux { it with title := c } t with
    | error e => simp [h2]
    | ok q => obtain ⟨r2, u, hu⟩ := q; simp [h2]

theorem rss_from_state_title (r : RSS) (a : List (Except Unit Attribute))
    (s : List XmlEvent) :
    rss_from_state r (.start "title" a :: s) =
      match text_from_state none s with
      | .error e => .error e
      | .ok (some ti, t) => rss_from_state { r with title := ti } t
      | .ok (none, t) => rss_from_state r t := by
  simp only [rss_from_state, rssAux, text_from_state]
  cases h : textAux none s with
  | error e => simp
  | ok p =>
    obtain ⟨c, t, ht⟩ := p
    cases c with
    | some ti =>
      cases h2 : rssAux { r with title := ti } t with
      | error e => simp [h2]
      | ok q => obtain ⟨r2, u, hu⟩ := q; simp [h2]
    | none =>
      cases h2 : rssAux r t with
      | error e => simp [h2]
      | ok q => obtain ⟨r2, u, hu⟩ := q; simp [h2]



theorem skip_element_sublist_fuel : ∀ (n : Nat) (s : List XmlEvent), s.length ≤ n →
    ∀ t, skip_element s = .ok t → List.Sublist t s := by
  intro n
  induction n with
  | zero =>
    intro s hs t ht
    cases s with
    | nil =>
      rw [skip_element_nil] at ht
      cases ht
      exact List.Sublist.refl []
    | cons e s' => simp at hs
  | succ n ih =>
    intro s hs t ht
    cases s with
    | nil =>
      rw [skip_element_nil] at ht
      cases ht
      exact List.Sublist.refl []
    | cons e s' =>
      simp only [List.length_cons, Nat.succ_le_succ_iff] at hs
      cases e with
      | err => rw [skip_element_err] at ht; cases ht
      | endTag =>
        rw [skip_element_end] at ht
        cases ht
        exact List.sublist_cons_self _ _
      | start m a =>
        rw [skip_element_start] at ht
        cases h1 : skip_element s' with
        | error e => rw [h1] at ht; cases ht
        | ok t1 =>
          rw [h1] at ht
          have hsub1 : List.Sublist t1 s' := ih s' hs t1 h1
          have hsub2 : List.Sublist t t1 :=
            ih t1 (le_trans hsub1.length_le hs) t ht
          exact (hsub2.trans hsub1).trans (List.sublist_cons_self _ _)
      | empty m a =>
        rw [skip_element_flat (by simp [flatEv])] at ht
        exact ((ih s' hs t ht).trans (List.sublist_cons_self _ _))
      | text d =>
        rw [skip_element_flat (by simp [flatEv])] at ht
        exact ((ih s' hs t ht).trans (List.sublist_cons_self _ _))
      | cdata x =>
        rw [skip_element_flat (by simp [flatEv])] at ht
        exact ((ih s' hs t ht).trans (List.sublist_cons_self _ _))
      | other =>
        rw [skip_element_flat (by simp [flatEv])] at ht
        exact ((ih s' hs t ht).trans (List.sublist_cons_self _ _))

theorem skip_element_sublist {s t : List XmlEvent} (h : skip_element s = .ok t) :
    List.Sublist t s :=
  skip_element_sublist_fuel s.length s (Nat.le_refl _) t h

theorem skip_element_ok_fuel : ∀ (n : Nat) (s : List XmlEvent), s.length ≤ n →
    (∀ e ∈ s, e ≠ XmlEvent.err) → ∃ t, skip_element s = .ok t := by
  intro n
  induction n with
  | zero =>
    intro s hs hne
    cases s with
    | nil => exact ⟨[], skip_element_nil⟩
    | cons e s' => simp at hs
  | succ n ih =>
    intro s hs hne
    cases s with
    | nil => exact ⟨[], skip_element_nil⟩
    | cons e s' =>
      simp only [List.length_cons, Nat.succ_le_succ_iff] at hs
      have hne' : ∀ x ∈ s', x ≠ XmlEvent.err := fun x hx => hne x (List.mem_cons_of_mem _ hx)
      cases e with
      | err => exact absurd rfl (hne .err (List.mem_cons_self _ _))
      | endTag => exact ⟨s', skip_element_end s'⟩
      | start m a =>
        obtain ⟨t1, ht1⟩ := ih s' hs hne'
        have hsub1 : List.Sublist t1 s' := skip_element_sublist ht1
        obtain ⟨t, ht⟩ := ih t1 (le_trans hsub1.length_le hs)
          (fun x hx => hne' x (hsub1.subset hx))
        refine ⟨t, ?_⟩
        rw [skip_element_start, ht1]
        exact ht
      | empty m a =>
        obtain ⟨t, ht⟩ := ih s' hs hne'
        exact ⟨t, by rw [skip_element_flat (by simp [flatEv])]; exact ht⟩
      | text d =>
        obtain ⟨t, ht⟩ := ih s' hs hne'
        exact ⟨t, by rw [skip_element_flat (by simp [flatEv])]; exact ht⟩
      | cdata x =>
        obtain ⟨t, ht⟩ := ih s' hs hne'
        exact ⟨t, by rw [skip_element_flat (by simp [flatEv])]; exact ht⟩
      | other =>
        obtain ⟨t, ht⟩ := ih s' hs hne'
        exact ⟨t, by rw [skip_element_flat (by simp [flatEv])]; exact ht⟩

theorem skip_element_ok_of_no_err {s : List XmlEvent}
    (h : ∀ e ∈ s, e ≠ XmlEvent.err) : ∃ t, skip_element s = .ok t :=
  skip_element_ok_fuel s.length s (Nat.le_refl _) h

theorem skip_element_err_at_depth : ∀ (d : Nat) (n : String)
    (a : List (Except Unit Attribute)) (s : List XmlEvent),
    skip_element (List.replicate d (XmlEvent.start n a) ++ .err :: s) = .error .xml := by
  intro d n a s
  induction d with
  | zero => simp [skip_element_err]
  | succ k ih =>
    rw [List.replicate_succ, List.cons_append, skip_element_start, ih]

/-! Claim theorems. -/

theorem hostCaptures_ne_empty (src m : String) (h : hostCaptures src = some m) : m ≠ "" := by
  unfold hostCaptures at h
  split_ifs at h with h1 h2 h3
  · cases h
    intro he
    have h8 : ("https://" ++ hostSeg (strDrop src 8)).length = 0 := by rw [he]; rfl
    rw [String.length_append] at h8
    have h9 : ("https://" : String).length = 8 := rfl
    omega
  · cases h
    intro he
    have h8 : ("http://" ++ hostSeg (strDrop src 7)).length = 0 := by rw [he]; rfl
    rw [String.length_append] at h8
    have h9 : ("http://" : String).length = 7 := rfl
    omega
  · cases h
    simpa using h3

theorem rss_host_ne_empty {src : String} (h : src ≠ "") : rss_host src ≠ "" := by
  unfold rss_host
  cases hc : hostCaptures src with
  | none => simpa using h
  | some m => simpa using hostCaptures_ne_empty src m hc

/-- C1 (counterexample): a parsed feed whose link is the relative form
`"foo"` (no leading slash) keeps it unchanged through normalization, so the
normalized link has no scheme (no colon at all) and differs from both the
bare host and the scheme-qualified origin of the source URL; moreover with
an empty source URL an empty feed link stays empty.  This refutes the
claimed invariant that the normalized link is always absolute or the bare
host and never remains empty. -/
theorem claim_c1_counterexample :
    parse [.start "channel" [], .start "link" [], .text (.ok "foo"), .endTag, .endTag]
      = .ok ⟨"", "foo", []⟩
    ∧ (fix_relative_url ⟨"", "foo", []⟩ "http://example.com/feed.xml").link = "foo"
    ∧ ("foo".data.contains ':') = false
    ∧ "foo" ≠ "http://example.com" ∧ "foo" ≠ "example.com"
    ∧ (fix_relative_url ⟨"", "", []⟩ "").link = "" := by
  refine ⟨?_, by decide, by decide, by decide, by decide, by decide⟩
  simp [parse, rss_from_xml_value, rssAux, textAux, skipAux, RSS.default]

/-- C1 (amended): after normalization, a feed link that was empty or
exactly `"/"` equals the origin computed from the source URL (the HOST
match, or the literal source URL when the pattern fails), and is non-empty
whenever the source URL is non-empty; any other feed link is rewritten by
`set_url_relative_to_absolute` only (so a relative form without a leading
slash may stay non-absolute). -/
theorem claim_c1 : ∀ (rss : RSS) (src : String),
    ((rss.link = "" ∨ rss.link = "/") →
      (fix_relative_url rss src).link = rss_host src
      ∧ (src ≠ "" → (fix_relative_url rss src).link ≠ ""))
    ∧ (¬ (rss.link = "" ∨ rss.link = "/") →
      (fix_relative_url rss src).link = set_url_relative_to_absolute rss.link (rss_host src)) := by
  intro rss src
  constructor
  · intro hl
    have hlink : (fix_relative_url rss src).link = rss_host src := by
      simp only [fix_relative_url]
      rw [if_pos hl]
    exact ⟨hlink, fun hsrc => by rw [hlink]; exact rss_host_ne_empty hsrc⟩
  · intro hl
    simp only [fix_relative_url]
    rw [if_neg hl]

/-- C1 (witness): concrete instance of the amended claim at an empty parsed
link and the source URL `https://a.example/feed.xml`. -/
theorem claim_c1_witness :
    (fix_relative_url ⟨"", "", []⟩ "https://a.example/feed.xml").link
      = rss_host "https://a.example/feed.xml"
    ∧ (fix_relative_url ⟨"", "", []⟩ "https://a.example/feed.xml").link ≠ "" :=
  ⟨((claim_c1 ⟨"", "", []⟩ "https://a.example/feed.xml").1 (Or.inl rfl)).1,
   ((claim_c1 ⟨"", "", []⟩ "https://a.example/feed.xml").1 (Or.inl rfl)).2 (by decide)⟩

/-- C2 (counterexample): the empty-or-`"/"`-to-origin rule is not applied
to item links: with source URL `http://e.com`, a feed link `"/"` becomes
the origin verbatim while an item link `"/"` becomes `"http://e.com/"`,
which differs from the origin.  This refutes the claim that the same three
rewrite rules are applied to item links. -/
theorem claim_c2_counterexample :
    fix_relative_url ⟨"x", "/", [⟨none, some "/", none⟩]⟩ "http://e.com"
      = ⟨"x", "http://e.com", [⟨none, some "http://e.com/", none⟩]⟩
    ∧ ("http://e.com/" : String) ≠ "http://e.com" := by
  decide

/-- C2 (amended): the normalizer rewrites every present item link with
`set_url_relative_to_absolute` only — `//` gets `http:` prepended and a
single leading `/` gets the origin prepended — while the empty-or-`"/"`
replacement by the origin applies only to the feed link: an empty item link
stays empty and an item link `"/"` becomes origin ++ `"/"`.  The step is a
total pure function on the feed value. -/
theorem claim_c2 : ∀ (rss : RSS) (src : String),
    (fix_relative_url rss src).items = rss.items.map (fun it =>
      { it with link := it.link.map (fun l => set_url_relative_to_absolute l (rss_host src)) })
    ∧ (∀ h : String, set_url_relative_to_absolute "" h = "")
    ∧ (∀ h : String, set_url_relative_to_absolute "/" h = h ++ "/") := by
  intro rss src
  refine ⟨rfl, fun h => ?_, fun h => ?_⟩
  · simp [set_url_relative_to_absolute,
      show starts_with "" "//" = false from rfl,
      show starts_with "" "/" = false from rfl]
  · simp [set_url_relative_to_absolute,
      show starts_with "/" "//" = false from rfl,
      show starts_with "/" "/" = true from rfl]

/-- C3: `parse_atom_link` returns exactly the last successfully decoded
`href` value when the `rel` attribute is absent or its last decoded value
is `"alternate"`, and `none` otherwise, independent of attribute order;
failed attribute entries and failed `href` decodes are skipped rather than
failing the element. -/
theorem claim_c3 : ∀ (attrs : List (Except Unit Attribute)),
    parse_atom_link attrs = (if isAlternateRel attrs then lastHref attrs else none)
    ∧ (∀ v, parse_atom_link attrs = some v ↔
        (isAlternateRel attrs = true ∧ lastHref attrs = some v)) := by
  intro attrs
  have h := parseAtomLinkGo_spec attrs none true
  constructor
  · exact h
  · intro v
    rw [show parse_atom_link attrs = _ from h]
    simp only [isAlternateRel, lastHref]
    cases hb : isAlternateRelFrom true attrs <;> simp [hb]

/-- C7: host extraction maps `example.com/path` to `example.com` and
`http://example.com/path` to `http://example.com`; `/path` and the empty
string yield no match and the normalizer falls back to the literal input
as the origin. -/
theorem claim_c7 :
    hostCaptures "example.com/path" = some "example.com"
    ∧ hostCaptures "http://example.com/path" = some "http://example.com"
    ∧ hostCaptures "/path" = none
    ∧ hostCaptures "" = none
    ∧ rss_host "/path" = "/path"
    ∧ rss_host "" = ""
    ∧ (fix_relative_url ⟨"", "", []⟩ "/path").link = "/path" := by
  decide

/-- C10: the `fetch_feed` response continuation treats every response code
other than exactly 200 (including other 2xx codes) as the typed HTTP
failure carrying that code, and parses the body only on exactly 200. -/
theorem claim_c10 : ∀ (code : Nat) (body : List XmlEvent) (link : String),
    (code ≠ 200 → fetch_feed_result code body link = .error (.http code))
    ∧ fetch_feed_result 200 body link =
        (match parse body with
         | .error e => .error e
         | .ok rss => .ok (fix_relative_url rss link)) := by
  intro code body link
  constructor
  · intro h
    simp [fetch_feed_result, h]
  · simp [fetch_feed_result]

/-- C10 (witness): the 2xx codes 201 and 206 are rejected with the typed
HTTP failure. -/
theorem claim_c10_witness :
    fetch_feed_result 201 [] "http://e.com/feed" = .error (.http 201)
    ∧ fetch_feed_result 206 [] "http://e.com/feed" = .error (.http 206) :=
  ⟨(claim_c10 201 [] "http://e.com/feed").1 (by decide),
   (claim_c10 206 [] "http://e.com/feed").1 (by decide)⟩

/-- C4: over complete level content (`Units s us`, with `us` the flat
events at the element's own level and all text decodable), the optional-text
extractor returns the last text/CDATA fragment of the element's own level —
each fragment overwrites the previous one and nested elements' content is
dropped — both when the closing tag is reached and when the stream ends
first; it returns `none` exactly when no fragment occurred at that level. -/
theorem claim_c4 :
    (∀ (s us rest : List XmlEvent), Units s us → us.all topTextOk = true →
      option_string_from_xml (s ++ .endTag :: rest) = .ok (lastFrag us, rest))
    ∧ (∀ (s us : List XmlEvent), Units s us → us.all topTextOk = true →
      option_string_from_xml s = .ok (lastFrag us, [])) := by
  constructor
  · intro s us rest h hok
    rw [option_string_from_xml, text_from_state_units h hok none rest, contentAfter_none]
  · intro s us h hok
    rw [option_string_from_xml, text_from_state_units_eof h hok none, contentAfter_none]

/-- C4 (witness): a level with the fragments `"a"` and `"b"` and a nested
element containing `"zz"` yields `"b"` (last fragment wins, nested content
ignored), and a fragment-free level yields `none`. -/
theorem claim_c4_witness :
    option_string_from_xml
      ([.text (.ok "a"), .start "x" [], .text (.ok "zz"), .endTag, .cdata "b"]
        ++ .endTag :: []) = .ok (some "b", [])
    ∧ option_string_from_xml ([XmlEvent.other] ++ .endTag :: []) = .ok (none, []) := by
  have h1 := claim_c4.1 [.text (.ok "a"), .start "x" [], .text (.ok "zz"), .endTag, .cdata "b"]
    [.text (.ok "a"), .cdata "b"] []
    (Units.flat (by rfl) (Units.elem (Units.flat (by rfl) Units.nil) (Units.flat (by rfl) Units.nil)))
    (by decide)
  have h2 := claim_c4.1 [XmlEvent.other] [XmlEvent.other] []
    (Units.flat (by rfl) Units.nil) (by decide)
  constructor
  · rw [h1]; rfl
  · rw [h2]; rfl

/-- C5: the top-level `parse` fails with the `eof` error — distinct from
the tokenizer error — exactly on streams whose scan finds no opening tag
named `channel`, `feed`, or `rdf:RDF` before the stream ends (`NoRoot`);
when the scan does find one (`FindsRoot`), `parse` returns the result of
the channel/feed parser on the remainder and in particular does not fail
with `eof`; an `rss` opening tag is stepped over, and any other opening
tag is skipped as a complete subtree. -/
theorem claim_c5 :
    (∀ s, NoRoot s → parse s = .error FeedError.eof)
    ∧ (∀ s t, FindsRoot s t →
        parse s = rss_from_xml_value t ∧ parse s ≠ .error FeedError.eof)
    ∧ (∀ (a : List (Except Unit Attribute)) s, parse (.start "rss" a :: s) = parse s)
    ∧ (∀ (n : String) (a : List (Except Unit Attribute)) (inner ius s : List XmlEvent),
        n ≠ "rss" → ¬ isRootName n → Units inner ius →
        parse (.start n a :: inner ++ .endTag :: s) = parse s)
    ∧ FeedError.eof ≠ FeedError.xml := by
  refine ⟨fun s h => parse_noRoot h, ?_, fun a s => parse_rss a s, ?_, by decide⟩
  · intro s t h
    refine ⟨parse_findsRoot h, ?_⟩
    rw [parse_findsRoot h]
    exact rss_from_xml_value_ne_eof t
  · intro n a inner ius s h1 h2 hu
    simp only [List.cons_append]
    rw [parse_other_start h1 h2, skip_element_units hu]

/-- C5 (witness): a stream holding only an unrecognized complete element
fails with `eof`, while `channel` found inside an `rss` wrapper is parsed
(and does not fail with `eof`). -/
theorem claim_c5_witness :
    parse [.other, .start "foo" [], .text (.ok "x"), .endTag]
      = .error FeedError.eof
    ∧ parse [.start "rss" [], .start "channel" [], .endTag]
      = rss_from_xml_value [.endTag]
    ∧ parse [.start "rss" [], .start "channel" [], .endTag]
      ≠ .error FeedError.eof := by
  have h1 := claim_c5.1 [.other, .start "foo" [], .text (.ok "x"), .endTag]
    (NoRoot.flat (by rfl)
      (NoRoot.other (by decide) (by simp [isRootName])
        (Units.flat (by rfl) Units.nil) NoRoot.nil))
  have h2 := claim_c5.2.1 [.start "rss" [], .start "channel" [], .endTag] [.endTag]
    (FindsRoot.rss (FindsRoot.here (Or.inl rfl)))
  exact ⟨h1, h2.1, h2.2⟩

/-- C6: on a nested `channel` element (the RDF shape) the channel/feed
parser recursively parses the subtree as a full feed from the default state
and adopts only its title and link into the current state — the current
items are kept as they are and the recursive result's items are discarded. -/
theorem claim_c6 : ∀ (st : RSS) (a : List (Except Unit Attribute))
    (s : List XmlEvent) (r : RSS) (t : List XmlEvent),
    rss_from_state RSS.default s = .ok (r, t) →
    rss_from_state st (.start "channel" a :: s) =
      rss_from_state { st with title := r.title, link := r.link } t := by
  intro st a s r t h
  rw [rss_from_state_channel, h]

/-- C6 (witness): a nested channel containing a title and one item passes
its title to the outer feed while its item is discarded: the outer parse
ends with no items. -/
theorem claim_c6_witness :
    rss_from_state RSS.default
      [.start "channel" [], .start "title" [], .text (.ok "T"), .endTag,
       .start "item" [], .endTag, .endTag, .endTag]
      = .ok (⟨"T", "", []⟩, [])
    ∧ rss_from_state RSS.default
        [.start "title" [], .text (.ok "T"), .endTag, .start "item" [],
         .endTag, .endTag, .endTag]
      = .ok (⟨"T", "", [Item.default]⟩, [.endTag]) := by
  have hinner : rss_from_state RSS.default
      [.start "title" [], .text (.ok "T"), .endTag, .start "item" [],
       .endTag, .endTag, .endTag]
      = .ok (⟨"T", "", [Item.default]⟩, [.endTag]) := by
    simp [rss_from_state, rssAux, textAux, itemAux, RSS.default, Item.default]
  have h := claim_c6 RSS.default []
    [.start "title" [], .text (.ok "T"), .endTag, .start "item" [],
     .endTag, .endTag, .endTag]
    ⟨"T", "", [Item.default]⟩ [.endTag] hinner
  refine ⟨?_, hinner⟩
  rw [show ([.start "channel" [], .start "title" [], .text (.ok "T"), .endTag,
      .start "item" [], .endTag, .endTag, .endTag] : List XmlEvent)
      = .start "channel" [] :: [.start "title" [], .text (.ok "T"), .endTag,
        .start "item" [], .endTag, .endTag, .endTag] from rfl]
  rw [h]
  simp [rss_from_state, rssAux, RSS.default]

/-- C8: the element skipper succeeds on any stream without tokenizer-error
events — both when the matching closing tag is reached (consuming exactly
the complete balanced content and returning the remainder) and when the
stream ends first (end-of-stream during a skip is tolerated) — while a
tokenizer error at any nesting depth is propagated immediately as the xml
failure. -/
theorem claim_c8 :
    (∀ s : List XmlEvent, (∀ e ∈ s, e ≠ XmlEvent.err) → ∃ t, skip_element s = .ok t)
    ∧ (∀ inner ius rest : List XmlEvent, Units inner ius →
        skip_element (inner ++ .endTag :: rest) = .ok rest)
    ∧ (∀ s us : List XmlEvent, Units s us → skip_element s = .ok [])
    ∧ (∀ (d : Nat) (n : String) (a : List (Except Unit Attribute)) (s : List XmlEvent),
        skip_element (List.replicate d (XmlEvent.start n a) ++ .err :: s)
          = .error FeedError.xml) :=
  ⟨fun _ h => skip_element_ok_of_no_err h,
   fun _ _ rest hu => skip_element_units hu rest,
   fun _ _ hu => skip_element_units_eof hu,
   skip_element_err_at_depth⟩

/-- C8 (witness): skipping succeeds on a truncated error-free stream, a
complete element's content is consumed up to its closing tag, and an error
two levels down propagates as the xml failure. -/
theorem claim_c8_witness :
    (∃ t, skip_element [XmlEvent.other, .start "a" [], .cdata "x"] = .ok t)
    ∧ skip_element ([.start "b" [], .text (.ok "y"), .endTag] ++ .endTag :: [.other])
        = .ok [.other]
    ∧ skip_element (List.replicate 2 (XmlEvent.start "a" []) ++ .err :: [])
        = .error FeedError.xml := by
  refine ⟨claim_c8.1 [XmlEvent.other, .start "a" [], .cdata "x"] (by decide), ?_, ?_⟩
  · exact claim_c8.2.1 [.start "b" [], .text (.ok "y"), .endTag] [] [.other]
      (Units.elem (Units.flat (by rfl) Units.nil) Units.nil)
  · exact claim_c8.2.2.2 2 "a" [] []

/-- C9: a `title` child of an item assigns the extraction result to the
item's title unconditionally — when the extraction yields nothing a
previously captured title is reset to absent — whereas a `title` child of a
channel/feed overwrites the feed title only when the extraction yields a
value. -/
theorem claim_c9 : ∀ (it : Item) (fr : RSS) (a : List (Except Unit Attribute))
    (s : List XmlEvent) (c : Option String) (t : List XmlEvent),
    option_string_from_xml s = .ok (c, t) →
    item_from_state it (.start "title" a :: s) = item_from_state { it with title := c } t
    ∧ rss_from_state fr (.start "title" a :: s) =
        rss_from_state (match c with
          | some v => { fr with title := v }
          | none => fr) t := by
  intro it fr a s c t h
  rw [option_string_from_xml] at h
  constructor
  · rw [item_from_state_title, h]
  · rw [rss_from_state_title, h]
    cases c <;> rfl

/-- C9 (witness): an immediately-closed `title` element (no text) resets an
item title that was previously `"A"` back to absent, while the same events
leave a feed title `"A"` unchanged. -/
theorem claim_c9_witness :
    item_from_state ⟨some "A", none, none⟩ (.start "title" [] :: [XmlEvent.endTag])
      = item_from_state ⟨none, none, none⟩ []
    ∧ rss_from_state ⟨"A", "", []⟩ (.start "title" [] :: [XmlEvent.endTag])
      = rss_from_state ⟨"A", "", []⟩ [] := by
  have h := claim_c9 ⟨some "A", none, none⟩ ⟨"A", "", []⟩ [] [XmlEvent.endTag] none []
    (by rw [option_string_from_xml, text_from_state_end])
  exact ⟨h.1, h.2⟩

/-- C3 (witness): an alternate-rel link yields its href even with the
attributes in either order, and a `rel="self"` link yields none. -/
theorem claim_c3_witness :
    parse_atom_link [.ok ⟨"rel", "alternate", .error ()⟩,
      .ok ⟨"href", "", .ok "http://a.example/x"⟩] = some "http://a.example/x"
    ∧ parse_atom_link [.ok ⟨"href", "", .ok "http://a.example/x"⟩,
        .ok ⟨"rel", "self", .error ()⟩] = none := by
  constructor
  · exact ((claim_c3 [.ok ⟨"rel", "alternate", .error ()⟩,
      .ok ⟨"href", "", .ok "http://a.example/x"⟩]).2 "http://a.example/x").mpr
      ⟨by decide, by decide⟩
  · rw [(claim_c3 [.ok ⟨"href", "", .ok "http://a.example/x"⟩,
      .ok ⟨"rel", "self", .error ()⟩]).1]
    decide

end RssBot
